import Mathlib

/-!
Verification of the adaptron trading core against its specification.

The Python source is embedded shallowly:
* `float` values become `ℚ` (exact arithmetic; the spec's invariants are
  stated over the documented formulas, not bit-level float rounding),
* Python `int(x)` (truncation toward zero) becomes `pyInt`,
* mutable objects become explicit state records threaded through functions,
* the ambient clock (`date.today()`, `datetime.now()`) becomes an explicit
  argument of the operations that read it.
-/

/-- Python `int(x)` applied to a float: truncation toward zero. -/
def pyInt (q : ℚ) : ℤ :=
  if 0 ≤ q then ⌊q⌋ else ⌈q⌉

theorem pyInt_of_nonneg {q : ℚ} (h : 0 ≤ q) : pyInt q = ⌊q⌋ := by
  simp [pyInt, h]

theorem pyInt_le_self {q : ℚ} (h : 0 ≤ q) : (pyInt q : ℚ) ≤ q := by
  rw [pyInt_of_nonneg h]; exact Int.floor_le q

theorem pyInt_nonneg {q : ℚ} (h : 0 ≤ q) : 0 ≤ pyInt q := by
  rw [pyInt_of_nonneg h]; exact Int.floor_nonneg.mpr h

theorem le_pyInt {z : ℤ} {q : ℚ} (h0 : 0 ≤ q) (h : (z : ℚ) ≤ q) : z ≤ pyInt q := by
  rw [pyInt_of_nonneg h0]; exact Int.le_floor.mpr h

/-! ## Trading environment (`src/core/env.py`, class `StockTradingEnv`)

The dataframe column actually used by the trading logic is the
de-normalized price series (`Original_Close`), embedded as `df : List ℚ`.
Observations are not modelled: they do not feed back into the state. -/

structure EnvConfig where
  initial_balance : ℚ
  transaction_cost : ℚ
  max_position_size : ℚ
deriving DecidableEq, Repr

structure EnvState where
  balance : ℚ
  shares_held : ℤ
  total_shares_bought : ℤ
  total_shares_sold : ℤ
  total_trades : ℕ
  net_worth : ℚ
  max_net_worth : ℚ
  returns : List ℚ
  portfolio_values : List ℚ
  current_step : ℕ
deriving DecidableEq, Repr

/-- Source `StockTradingEnv.reset`: the portfolio fields after a reset. -/
def resetEnv (cfg : EnvConfig) : EnvState :=
  { balance := cfg.initial_balance
    shares_held := 0
    total_shares_bought := 0
    total_shares_sold := 0
    total_trades := 0
    net_worth := cfg.initial_balance
    max_net_worth := cfg.initial_balance
    returns := []
    portfolio_values := [cfg.initial_balance]
    current_step := 0 }

/-- Source `StockTradingEnv._get_current_price` via `df.iloc[step]`. -/
def priceAt (df : List ℚ) (k : ℕ) : ℚ := df.getD k 0

/-- Source `StockTradingEnv._execute_trade`: returns the new state and the
transaction fee paid (`0` when no trade happens). -/
def execute_trade (cfg : EnvConfig) (s : EnvState) (action price : ℚ) :
    EnvState × ℚ :=
  if action > 0 then
    let buy_amount := s.balance * min |action| cfg.max_position_size
    let shares_to_buy := pyInt (buy_amount / price)
    if shares_to_buy > 0 then
      let cost := (shares_to_buy : ℚ) * price
      let transaction_fee := cost * cfg.transaction_cost
      let total_cost := cost + transaction_fee
      if total_cost ≤ s.balance then
        ({ s with
            shares_held := s.shares_held + shares_to_buy
            balance := s.balance - total_cost
            total_shares_bought := s.total_shares_bought + shares_to_buy
            total_trades := s.total_trades + 1 }, transaction_fee)
      else (s, 0)
    else (s, 0)
  else if action < 0 then
    if s.shares_held > 0 then
      let sellFrac := min |action| 1
      let shares_to_sell := pyInt ((s.shares_held : ℚ) * sellFrac)
      if shares_to_sell > 0 then
        let revenue := (shares_to_sell : ℚ) * price
        let transaction_fee := revenue * cfg.transaction_cost
        let net_revenue := revenue - transaction_fee
        ({ s with
            balance := s.balance + net_revenue
            shares_held := s.shares_held - shares_to_sell
            total_shares_sold := s.total_shares_sold + shares_to_sell
            total_trades := s.total_trades + 1 }, transaction_fee)
      else (s, 0)
    else (s, 0)
  else (s, 0)

/-- Source `StockTradingEnv._calculate_reward`: returns the state (the method
mutates `max_net_worth`) and the reward. `fee` is the transaction fee the
preceding `_execute_trade` returned. -/
def calculate_reward (cfg : EnvConfig) (df : List ℚ) (s : EnvState) (fee : ℚ) :
    EnvState × ℚ :=
  let price := priceAt df s.current_step
  let v := s.balance + (s.shares_held : ℚ) * price
  let prev := match s.portfolio_values.getLast? with
    | some x => x
    | none => cfg.initial_balance
  let portfolio_return := (v - prev) / prev
  let r1 := portfolio_return * 100 - fee / cfg.initial_balance * 2
  let r2 :=
    if s.portfolio_values.length > 50 ∧ s.current_step % 50 = 0 then
      let market_return := price / priceAt df 0 - 1
      let total_return := v / cfg.initial_balance - 1
      if total_return > market_return then
        r1 + (total_return - market_return) * 20
      else r1
    else r1
  if v > s.max_net_worth then ({ s with max_net_worth := v }, r2 + 1 / 2)
  else (s, r2)

/-- Source `StockTradingEnv.step`: trade, reward, bookkeeping, step advance.
Returns the new state, the reward and the `done` flag. -/
def envStep (cfg : EnvConfig) (df : List ℚ) (s : EnvState) (action : ℚ) :
    EnvState × ℚ × Bool :=
  let price := priceAt df s.current_step
  let t := execute_trade cfg s action price
  let r := calculate_reward cfg df t.1 t.2
  let s2 := r.1
  let v := s2.balance + (s2.shares_held : ℚ) * price
  let s3 := { s2 with
      returns := s2.returns ++ [r.2]
      portfolio_values := s2.portfolio_values ++ [v]
      net_worth := v
      current_step := s2.current_step + 1 }
  (s3, r.2, decide (s3.current_step ≥ df.length - 1))

/-- Running a sequence of `step(action)` calls. -/
def runSteps (cfg : EnvConfig) (df : List ℚ) (s : EnvState)
    (actions : List ℚ) : EnvState :=
  actions.foldl (fun st a => (envStep cfg df st a).1) s

/-- The value `np.mean` computes over the recorded step rewards. -/
def npMean (xs : List ℚ) : ℚ := xs.sum / xs.length

/-- The square of `np.std` (population standard deviation, `ddof = 0`):
`np.std xs = Real.sqrt (npVarQ xs)`. -/
def npVarQ (xs : List ℚ) : ℚ :=
  ((xs.map fun x => (x - npMean xs) ^ 2).sum) / xs.length

/-- The Sharpe ratio reported in the terminal `info` dict, represented
symbolically: `zero` is the guarded branch (`sharpe_ratio = 0`), and
`ratio m v` stands for `m / Real.sqrt v * Real.sqrt 252` where `v` is the
variance of the rewards, i.e. the source's
`np.mean(r) / np.std(r) * np.sqrt(252)`.  The source's guard is
`len(r) > 1 and np.std(r) > 0`; since `np.std r = sqrt (npVarQ r)` and
`sqrt t > 0 ↔ t > 0` for the nonnegative variance, the guard is embedded
by the equivalent decidable condition `0 < npVarQ r`. -/
inductive SharpeVal where
  | zero
  | fromMeanVar (mean variance : ℚ)
deriving DecidableEq, Repr

/-- The `sharpe_ratio` entry computed in `StockTradingEnv.step` at
termination, over the recorded rewards. -/
def sharpeReported (xs : List ℚ) : SharpeVal :=
  if xs.length > 1 ∧ 0 < npVarQ xs then .fromMeanVar (npMean xs) (npVarQ xs)
  else .zero

/-- The Sharpe ratio an episode ending in state `s` reports. -/
def episodeSharpe (s : EnvState) : SharpeVal := sharpeReported s.returns

/-! ## Risk manager (`src/core/risk_management.py`, class `RiskManager`)

`date.today()` is modelled as an explicit `today : ℕ` argument, `datetime`
timestamps as `PyTime`.  JSON serialization (`json.dump(..., default=str)`)
turns `datetime`/`date` values into strings, which `PyTime` makes explicit. -/

/-- A Python value that is either a `datetime`/`date` object or the string
`str(...)` produces for it (what JSON persistence stores). -/
inductive PyTime where
  | dt (t : ℕ)
  | str (s : String)
deriving DecidableEq, Repr

/-- Python `str(...)` applied to a `datetime`/`date` value (`json.dump` with
`default=str`); already-string values pass through unchanged. -/
def serializeTime : PyTime → PyTime
  | .dt t => .str (toString t)
  | .str s => .str s

/-- Python `str(self.current_date)`: `None` prints as `"None"`. -/
def dateToString : Option ℕ → String
  | none => "None"
  | some d => toString d

structure RMConfig where
  max_position_size : ℚ
  max_portfolio_risk : ℚ
  stop_loss_pct : ℚ
  daily_loss_limit : ℚ
  max_trades_per_day : ℕ
  max_drawdown : ℚ
  volatility_threshold : ℚ
  min_balance : ℚ
deriving DecidableEq, Repr

/-- The default `RiskManager.__init__` arguments. -/
def defaultRMConfig : RMConfig :=
  { max_position_size := 1 / 5
    max_portfolio_risk := 1
    stop_loss_pct := 1 / 50
    daily_loss_limit := 1 / 20
    max_trades_per_day := 50
    max_drawdown := 3 / 20
    volatility_threshold := 3 / 100
    min_balance := 10000 }

/-- An entry of `RiskManager.positions` (`self.positions[symbol]`). -/
structure Position where
  entry_price : ℚ
  quantity : ℤ
  stop_loss_price : ℚ
  entry_time : PyTime
  highest_price : ℚ
deriving DecidableEq, Repr

/-- An entry of `RiskManager.trade_history` (built in `remove_position`). -/
structure TradeRec where
  symbol : String
  entry_price : ℚ
  exit_price : ℚ
  quantity : ℤ
  pnl : ℚ
  pnl_pct : ℚ
  entry_time : PyTime
  exit_time : PyTime
  stop_loss_hit : Bool
deriving DecidableEq, Repr

/-- Insertion-ordered dict lookup (`symbol in self.positions` /
`self.positions[symbol]`). -/
def dictGet : List (String × Position) → String → Option Position
  | [], _ => none
  | e :: es, k => if e.1 = k then some e.2 else dictGet es k

/-- Insertion-ordered dict assignment (`self.positions[symbol] = ...`):
replace the entry if the key is present, otherwise append. -/
def dictSet : List (String × Position) → String → Position →
    List (String × Position)
  | [], k, v => [(k, v)]
  | e :: es, k, v => if e.1 = k then (k, v) :: es else e :: dictSet es k v

/-- The mutable state of one `RiskManager` (the `daily_pnl` list is never
read or written outside `__init__` and is omitted). -/
structure RMState where
  positions : List (String × Position)
  daily_start_value : Option ℚ
  peak_portfolio_value : Option ℚ
  trades_today : ℕ
  current_date : Option ℕ
  trading_enabled : Bool
  circuit_breaker_triggered : Bool
  trade_history : List TradeRec
deriving DecidableEq, Repr

/-- The state `RiskManager.__init__` builds. -/
def freshRM : RMState :=
  { positions := []
    daily_start_value := none
    peak_portfolio_value := none
    trades_today := 0
    current_date := none
    trading_enabled := true
    circuit_breaker_triggered := false
    trade_history := [] }

/-- The reason strings `can_trade` and the check methods return, one
constructor per distinct source string:
* `ok` = `""`
* `breaker` = `"Circuit breaker triggered - trading disabled"`
* `manual` = `"Trading manually disabled"`
* `dailyLoss` = `"CIRCUIT BREAKER: Daily loss ...% exceeds limit ...%"`
* `drawdown` = `"CIRCUIT BREAKER: Drawdown ...% exceeds limit ...%"`
* `minBalance` = `"Balance ... below minimum ..."`
* `tradeLimit` = `"Max trades per day (...) reached"` -/
inductive Reason where
  | ok
  | breaker
  | manual
  | dailyLoss
  | drawdown
  | minBalance
  | tradeLimit
deriving DecidableEq, Repr

/-- Source `RiskManager.reset_daily_counters(portfolio_value)`, with
`date.today()` passed in as `today`. -/
def reset_daily_counters (today : ℕ) (portfolio_value : ℚ) (s : RMState) :
    RMState :=
  if s.current_date = some today then s
  else
    let peak := match s.peak_portfolio_value with
      | none => portfolio_value
      | some pk => max pk portfolio_value
    let s1 := { s with
        current_date := some today
        daily_start_value := some portfolio_value
        trades_today := 0
        peak_portfolio_value := some peak }
    if s1.circuit_breaker_triggered then
      { s1 with circuit_breaker_triggered := false, trading_enabled := true }
    else s1

/-- Source `RiskManager.check_daily_loss_limit(current_value)`. -/
def check_daily_loss_limit (cfg : RMConfig) (current_value : ℚ)
    (s : RMState) : RMState × Bool × Reason :=
  match s.daily_start_value with
  | none => (s, true, .ok)
  | some dsv =>
    if (dsv - current_value) / dsv > cfg.daily_loss_limit then
      ({ s with circuit_breaker_triggered := true, trading_enabled := false },
        false, .dailyLoss)
    else (s, true, .ok)

/-- Source `RiskManager.check_max_drawdown(current_value)`. -/
def check_max_drawdown (cfg : RMConfig) (current_value : ℚ)
    (s : RMState) : RMState × Bool × Reason :=
  match s.peak_portfolio_value with
  | none => (s, true, .ok)
  | some pk =>
    if (pk - current_value) / pk > cfg.max_drawdown then
      ({ s with circuit_breaker_triggered := true, trading_enabled := false },
        false, .drawdown)
    else (s, true, .ok)

/-- Source `RiskManager.check_min_balance(balance)`. -/
def check_min_balance (cfg : RMConfig) (balance : ℚ) (s : RMState) :
    RMState × Bool × Reason :=
  if balance < cfg.min_balance then
    ({ s with trading_enabled := false }, false, .minBalance)
  else (s, true, .ok)

/-- Source `RiskManager.check_trade_limit()` (reads, never writes). -/
def check_trade_limit (cfg : RMConfig) (s : RMState) : Bool × Reason :=
  if s.trades_today ≥ cfg.max_trades_per_day then (false, .tradeLimit)
  else (true, .ok)

/-- Source `RiskManager.can_trade(portfolio_value, balance)`: daily reset, then the
gates in source order, stopping at the first failure. -/
def can_trade (cfg : RMConfig) (today : ℕ) (portfolio_value balance : ℚ)
    (s : RMState) : RMState × Bool × Reason :=
  let s0 := reset_daily_counters today portfolio_value s
  if s0.circuit_breaker_triggered then (s0, false, .breaker)
  else if s0.trading_enabled = false then (s0, false, .manual)
  else
    let c1 := check_daily_loss_limit cfg portfolio_value s0
    if c1.2.1 = false then (c1.1, false, c1.2.2)
    else
      let c2 := check_max_drawdown cfg portfolio_value c1.1
      if c2.2.1 = false then (c2.1, false, c2.2.2)
      else
        let c3 := check_min_balance cfg balance c2.1
        if c3.2.1 = false then (c3.1, false, c3.2.2)
        else
          let c4 := check_trade_limit cfg c3.1
          if c4.1 = false then (c3.1, false, c4.2)
          else (c3.1, true, .ok)

/-- Run a sequence of `can_trade` calls; each call is
`(today, portfolio_value, balance)`.  Returns the final state and the
`(allowed, reason)` outputs in order. -/
def canTradeRun (cfg : RMConfig) (s : RMState) :
    List (ℕ × ℚ × ℚ) → RMState × List (Bool × Reason)
  | [] => (s, [])
  | c :: cs =>
    let r := can_trade cfg c.1 c.2.1 c.2.2 s
    let rest := canTradeRun cfg r.1 cs
    (rest.1, (r.2.1, r.2.2) :: rest.2)

/-- The `position_value` local of `RiskManager.calculate_position_size`:
action-scaled notional, capped by the position-size limit, scaled down
under high volatility. -/
def positionValue (cfg : RMConfig) (action balance portfolio_value : ℚ)
    (volatility : Option ℚ) : ℚ :=
  let base := |action| * balance
  let capped := min base (portfolio_value * cfg.max_position_size)
  match volatility with
  | some v =>
    if v > cfg.volatility_threshold then capped * (cfg.volatility_threshold / v)
    else capped
  | none => capped

/-- Source `RiskManager.calculate_position_size(action, balance, portfolio_value,
current_price, volatility)`. -/
def calculate_position_size (cfg : RMConfig)
    (action balance portfolio_value current_price : ℚ)
    (volatility : Option ℚ) : ℤ :=
  let shares :=
    pyInt (positionValue cfg action balance portfolio_value volatility /
      current_price)
  if (shares : ℚ) * current_price > balance then pyInt (balance / current_price)
  else shares

/-- The position record `RiskManager.add_position` stores. -/
def mkPosition (cfg : RMConfig) (entry_price : ℚ) (quantity : ℤ) (t : ℕ) :
    Position :=
  { entry_price := entry_price
    quantity := quantity
    stop_loss_price := entry_price * (1 - cfg.stop_loss_pct)
    entry_time := .dt t
    highest_price := entry_price }

/-- Source `RiskManager.add_position(symbol, entry_price, quantity, timestamp)`:
unconditional `self.positions[symbol] = {...}` plus `trades_today += 1`. -/
def add_position (cfg : RMConfig) (symbol : String) (entry_price : ℚ)
    (quantity : ℤ) (t : ℕ) (s : RMState) : RMState :=
  { s with
      positions := dictSet s.positions symbol (mkPosition cfg entry_price quantity t)
      trades_today := s.trades_today + 1 }

/-- The position-level effect of `RiskManager.update_position`. -/
def updatePos (cfg : RMConfig) (p : Position) (current_price : ℚ) : Position :=
  if current_price > p.highest_price then
    { p with
        highest_price := current_price
        stop_loss_price := current_price * (1 - cfg.stop_loss_pct) }
  else p

/-- Source `RiskManager.update_position(symbol, current_price)` (trailing stop). -/
def update_position (cfg : RMConfig) (symbol : String) (current_price : ℚ)
    (s : RMState) : RMState :=
  match dictGet s.positions symbol with
  | none => s
  | some p =>
    if current_price > p.highest_price then
      { s with positions := dictSet s.positions symbol (updatePos cfg p current_price) }
    else s

/-- Source `RiskManager.emergency_stop(reason)`. -/
def emergency_stop (s : RMState) : RMState :=
  { s with trading_enabled := false, circuit_breaker_triggered := true }

/-- Source `RiskManager.resume_trading()`. -/
def resume_trading (s : RMState) : RMState :=
  { s with trading_enabled := true, circuit_breaker_triggered := false }

/-- Effect of `json.dump(..., default=str)` on a position entry: `datetime` fields
become strings, numbers and booleans are unchanged. -/
def serializePosition (p : Position) : Position :=
  { p with entry_time := serializeTime p.entry_time }

/-- Effect of `json.dump(..., default=str)` on a trade-history entry. -/
def serializeTrade (t : TradeRec) : TradeRec :=
  { t with
      entry_time := serializeTime t.entry_time
      exit_time := serializeTime t.exit_time }

/-- Python `lst[-n:]`. -/
def lastN (n : ℕ) (l : List α) : List α := l.drop (l.length - n)

/-- The JSON document `RiskManager.save_state` writes. -/
structure SavedDoc where
  positions : List (String × Position)
  daily_start_value : Option ℚ
  peak_portfolio_value : Option ℚ
  trades_today : ℕ
  current_date : String
  trading_enabled : Bool
  circuit_breaker_triggered : Bool
  trade_history : List TradeRec
deriving DecidableEq, Repr

/-- Source `RiskManager.save_state`: the serialized document (`current_date` is
stored as `str(self.current_date)`, timestamps via `default=str`,
`trade_history` truncated to the last 100 entries). -/
def save_state (s : RMState) : SavedDoc :=
  { positions := s.positions.map fun e => (e.1, serializePosition e.2)
    daily_start_value := s.daily_start_value
    peak_portfolio_value := s.peak_portfolio_value
    trades_today := s.trades_today
    current_date := dateToString s.current_date
    trading_enabled := s.trading_enabled
    circuit_breaker_triggered := s.circuit_breaker_triggered
    trade_history := (lastN 100 s.trade_history).map serializeTrade }

/-- Source `RiskManager.load_state` applied to a present document: assigns
`positions`, `daily_start_value`, `peak_portfolio_value`, `trades_today`,
`trading_enabled`, `circuit_breaker_triggered` and `trade_history` from
the document.  `current_date` is NOT read back (the source never assigns
it in `load_state`). -/
def load_state (doc : SavedDoc) (s : RMState) : RMState :=
  { s with
      positions := doc.positions
      daily_start_value := doc.daily_start_value
      peak_portfolio_value := doc.peak_portfolio_value
      trades_today := doc.trades_today
      trading_enabled := doc.trading_enabled
      circuit_breaker_triggered := doc.circuit_breaker_triggered
      trade_history := doc.trade_history }

/-! ## Depth-based slippage
(`src/_archived/zerodha/data_zerodha.py`, `calculate_slippage_zerodha`)

`fetch_market_depth_zerodha` relays the quote's `depth['buy']` and
`depth['sell']` lists.  In this repository `depth['buy'][0]['price']` is
the best bid and `depth['sell'][0]['price']` the best ask
(`live_trade_zerodha.py` lines 193-194), so `buy` holds the bid levels and
`sell` the ask levels, each ordered best to worst. -/

structure DepthLevel where
  price : ℚ
  quantity : ℤ
deriving DecidableEq, Repr

structure MarketDepth where
  buy : List DepthLevel
  sell : List DepthLevel
deriving DecidableEq, Repr

inductive Side where
  | BUY
  | SELL
deriving DecidableEq, Repr

/-- The level-walking loop of `calculate_slippage_zerodha`: returns the
final `(remaining, total_cost)`. -/
def walkBook : List DepthLevel → ℤ → ℚ → ℤ × ℚ
  | [], remaining, total_cost => (remaining, total_cost)
  | l :: ls, remaining, total_cost =>
    if remaining ≤ 0 then (remaining, total_cost)
    else
      let executed := min remaining l.quantity
      walkBook ls (remaining - executed) (total_cost + (executed : ℚ) * l.price)

/-- Source `calculate_slippage_zerodha(kite, token, quantity, side)` with the
fetched depth snapshot passed in.  The whole body runs in a
`try/except` that returns `0.001` on any exception; the two exceptions a
pure depth snapshot can produce are the two `ZeroDivisionError`s
(`total_cost / quantity` with `quantity = 0`, and division by a zero
`best_price`), embedded as explicit guards. -/
def calculate_slippage_zerodha (depth : MarketDepth) (quantity : ℤ)
    (side : Side) : ℚ :=
  if depth.buy = [] ∨ depth.sell = [] then 1 / 1000
  else
    let levels := if side = .BUY then depth.buy else depth.sell
    let w := walkBook levels quantity 0
    if w.1 > 0 then 1 / 200
    else if quantity = 0 then 1 / 1000
    else
      let avg_price := w.2 / (quantity : ℚ)
      let best_price := match levels with
        | l :: _ => l.price
        | [] => avg_price
      if best_price = 0 then 1 / 1000
      else |avg_price - best_price| / best_price

/-! ## Lemmas about the positions dictionary -/

theorem dictGet_dictSet_same (d : List (String × Position)) (k : String)
    (v : Position) : dictGet (dictSet d k v) k = some v := by
  induction d with
  | nil => simp [dictSet, dictGet]
  | cons e es ih =>
    by_cases h : e.1 = k
    · simp [dictSet, dictGet, h]
    · simp [dictSet, dictGet, h, ih]

theorem dictGet_dictSet_other (d : List (String × Position)) (k k' : String)
    (v : Position) (h : k' ≠ k) :
    dictGet (dictSet d k v) k' = dictGet d k' := by
  induction d with
  | nil => simp [dictSet, dictGet, Ne.symm h]
  | cons e es ih =>
    by_cases he : e.1 = k
    · have hset : dictSet (e :: es) k v = (k, v) :: es := by simp [dictSet, he]
      have he' : ¬e.1 = k' := fun hc => h (by rw [← hc, he])
      rw [hset]
      simp [dictGet, Ne.symm h, he']
    · have hset : dictSet (e :: es) k v = e :: dictSet es k v := by
        simp [dictSet, he]
      rw [hset]
      by_cases he' : e.1 = k'
      · simp [dictGet, he']
      · simp [dictGet, he', ih]

theorem mem_keys_dictSet (d : List (String × Position)) (k a : String)
    (v : Position) (h : a ∈ (dictSet d k v).map Prod.fst) :
    a ∈ d.map Prod.fst ∨ a = k := by
  induction d with
  | nil =>
    simp [dictSet] at h
    exact Or.inr h
  | cons e es ih =>
    by_cases he : e.1 = k
    · have hset : dictSet (e :: es) k v = (k, v) :: es := by simp [dictSet, he]
      rw [hset, List.map_cons, List.mem_cons] at h
      rcases h with h | h
      · exact Or.inr h
      · exact Or.inl (by rw [List.map_cons, List.mem_cons]; exact Or.inr h)
    · have hset : dictSet (e :: es) k v = e :: dictSet es k v := by
        simp [dictSet, he]
      rw [hset, List.map_cons, List.mem_cons] at h
      rcases h with h | h
      · exact Or.inl (by rw [List.map_cons, List.mem_cons]; exact Or.inl h)
      · rcases ih h with h' | h'
        · exact Or.inl (by rw [List.map_cons, List.mem_cons]; exact Or.inr h')
        · exact Or.inr h'

theorem nodup_keys_dictSet (d : List (String × Position)) (k : String)
    (v : Position) (h : (d.map Prod.fst).Nodup) :
    ((dictSet d k v).map Prod.fst).Nodup := by
  induction d with
  | nil => simp [dictSet]
  | cons e es ih =>
    rw [List.map_cons, List.nodup_cons] at h
    by_cases he : e.1 = k
    · have hset : dictSet (e :: es) k v = (k, v) :: es := by simp [dictSet, he]
      rw [hset, List.map_cons, List.nodup_cons]
      exact ⟨he ▸ h.1, h.2⟩
    · have hset : dictSet (e :: es) k v = e :: dictSet es k v := by
        simp [dictSet, he]
      rw [hset, List.map_cons, List.nodup_cons]
      refine ⟨fun hc => ?_, ih h.2⟩
      rcases mem_keys_dictSet es k e.1 v hc with h' | h'
      · exact h.1 h'
      · exact he h'

/-! ## C3: `add_position` on an existing symbol -/

/-- C3 (counterexample): `add_position` for a symbol that already has a
Position is NOT a no-op.  Adding "A" at entry 100 and then again at entry
200 replaces the Position (new `stop_loss_price` 196 instead of 98) and
increments `trades_today` to 2. -/
theorem add_position_existing_cex :
    (add_position defaultRMConfig "A" 200 5 1
        (add_position defaultRMConfig "A" 100 10 0 freshRM)).trades_today = 2 ∧
    dictGet (add_position defaultRMConfig "A" 200 5 1
        (add_position defaultRMConfig "A" 100 10 0 freshRM)).positions "A" =
      some { entry_price := 200, quantity := 5, stop_loss_price := 196,
             entry_time := .dt 1, highest_price := 200 } ∧
    dictGet (add_position defaultRMConfig "A" 100 10 0 freshRM).positions "A" =
      some { entry_price := 100, quantity := 10, stop_loss_price := 98,
             entry_time := .dt 0, highest_price := 100 } := by
  refine ⟨rfl, ?_, ?_⟩ <;>
    · simp [add_position, mkPosition, dictSet, dictGet, freshRM,
        defaultRMConfig]
      norm_num

/-- C3 (amended): `add_position` always stores a fresh Position for the
symbol — replacing any existing one — with
`stop_loss_price = entry_price * (1 - stop_loss_pct)` and
`highest_price = entry_price`, and always increments `trades_today`;
other symbols are untouched, and since `positions` is keyed by symbol at
most one open Position per symbol ever exists (key uniqueness is
preserved). -/
theorem add_position_overwrites (cfg : RMConfig) (sym : String)
    (entry : ℚ) (qty : ℤ) (t : ℕ) (s : RMState) :
    dictGet (add_position cfg sym entry qty t s).positions sym =
      some { entry_price := entry, quantity := qty,
             stop_loss_price := entry * (1 - cfg.stop_loss_pct),
             entry_time := .dt t, highest_price := entry } ∧
    (add_position cfg sym entry qty t s).trades_today = s.trades_today + 1 ∧
    (∀ sym2, sym2 ≠ sym →
      dictGet (add_position cfg sym entry qty t s).positions sym2 =
        dictGet s.positions sym2) ∧
    ((s.positions.map Prod.fst).Nodup →
      ((add_position cfg sym entry qty t s).positions.map Prod.fst).Nodup) := by
  refine ⟨?_, rfl, fun sym2 h2 => ?_, fun hn => ?_⟩
  · exact dictGet_dictSet_same s.positions sym (mkPosition cfg entry qty t)
  · exact dictGet_dictSet_other s.positions sym sym2 _ h2
  · exact nodup_keys_dictSet s.positions sym _ hn

/-- C3 witness: the amended theorem applied to a concrete manager. -/
theorem add_position_overwrites_witness :
    dictGet (add_position defaultRMConfig "A" 100 10 0 freshRM).positions "B" =
      none ∧
    ((add_position defaultRMConfig "A" 100 10 0 freshRM).positions.map
      Prod.fst).Nodup := by
  have h := add_position_overwrites defaultRMConfig "A" 100 10 0 freshRM
  refine ⟨?_, h.2.2.2 (by simp [freshRM])⟩
  rw [h.2.2.1 "B" (by decide)]
  rfl

/-! ## C5: `save_state` / `load_state` round trip -/

/-- C5 (counterexample): with an open position, `save_state` immediately
followed by `load_state` does NOT reproduce an equal manager: JSON
serialization (`default=str`) turns the position's `entry_time` datetime
into a string, and `load_state` reads the stringified value back. -/
theorem save_load_cex :
    (dictGet (load_state
        (save_state (add_position defaultRMConfig "AAPL" 100 10 7 freshRM))
        (add_position defaultRMConfig "AAPL" 100 10 7 freshRM)).positions
        "AAPL").map Position.entry_time = some (.str "7") ∧
    (dictGet (add_position defaultRMConfig "AAPL" 100 10 7
        freshRM).positions "AAPL").map Position.entry_time = some (.dt 7) ∧
    load_state
        (save_state (add_position defaultRMConfig "AAPL" 100 10 7 freshRM))
        (add_position defaultRMConfig "AAPL" 100 10 7 freshRM) ≠
      add_position defaultRMConfig "AAPL" 100 10 7 freshRM := by
  refine ⟨?_, ?_, ?_⟩ <;>
    · simp [load_state, save_state, serializePosition, serializeTime,
        add_position, mkPosition, dictSet, dictGet, freshRM, defaultRMConfig,
        lastN]
      try rfl

/-- C5 (amended): `save_state` followed by `load_state` on the same manager
restores `daily_start_value`, `peak_portfolio_value`, `trades_today`,
`trading_enabled` and `circuit_breaker_triggered` exactly; `current_date`
is unchanged only because `load_state` never reads it back from the
document (loading into any other manager keeps that manager's date); and
`positions` comes back with every `entry_time` replaced by its string
serialization, so the map is reproduced exactly only when no entry holds
a datetime value. -/
theorem save_load_roundtrip_amended :
    (∀ s : RMState,
      (load_state (save_state s) s).daily_start_value = s.daily_start_value ∧
      (load_state (save_state s) s).peak_portfolio_value =
        s.peak_portfolio_value ∧
      (load_state (save_state s) s).trades_today = s.trades_today ∧
      (load_state (save_state s) s).current_date = s.current_date ∧
      (load_state (save_state s) s).trading_enabled = s.trading_enabled ∧
      (load_state (save_state s) s).circuit_breaker_triggered =
        s.circuit_breaker_triggered ∧
      (load_state (save_state s) s).positions =
        s.positions.map fun e => (e.1, serializePosition e.2)) ∧
    (∀ s t : RMState,
      (load_state (save_state s) t).current_date = t.current_date) :=
  ⟨fun _ => ⟨rfl, rfl, rfl, rfl, rfl, rfl, rfl⟩, fun _ _ => rfl⟩

/-! ## C6: trailing stop never moves down -/

/-- C6: `update_position` (trailing stop).  (1) A price at or below the
recorded high leaves the Position unchanged.  (2) Positions created by
`add_position` satisfy `stop_loss_price = highest_price * (1 - stop_loss_pct)`.
(3) Along any sequence of updates from a position satisfying that
invariant, the stop is monotonically non-decreasing and the invariant is
preserved.  (4) At the manager level, `update_position` applies exactly
`updatePos` to the stored Position.  All of this needs
`stop_loss_pct ≤ 1` (the default configuration has `0.02`). -/
theorem trailing_stop_monotone (cfg : RMConfig)
    (hpct : cfg.stop_loss_pct ≤ 1) :
    (∀ (p : Position) (price : ℚ), price ≤ p.highest_price →
      updatePos cfg p price = p) ∧
    (∀ (entry : ℚ) (qty : ℤ) (t : ℕ),
      (mkPosition cfg entry qty t).stop_loss_price =
        (mkPosition cfg entry qty t).highest_price * (1 - cfg.stop_loss_pct)) ∧
    (∀ p : Position,
      p.stop_loss_price = p.highest_price * (1 - cfg.stop_loss_pct) →
      ∀ prices : List ℚ,
        p.stop_loss_price ≤ (prices.foldl (updatePos cfg) p).stop_loss_price ∧
        (prices.foldl (updatePos cfg) p).stop_loss_price =
          (prices.foldl (updatePos cfg) p).highest_price *
            (1 - cfg.stop_loss_pct)) ∧
    (∀ (s : RMState) (sym : String) (p : Position) (price : ℚ),
      dictGet s.positions sym = some p →
      dictGet (update_position cfg sym price s).positions sym =
        some (updatePos cfg p price)) := by
  have hone : ∀ (p : Position) (price : ℚ),
      p.stop_loss_price = p.highest_price * (1 - cfg.stop_loss_pct) →
      p.stop_loss_price ≤ (updatePos cfg p price).stop_loss_price ∧
      (updatePos cfg p price).stop_loss_price =
        (updatePos cfg p price).highest_price * (1 - cfg.stop_loss_pct) := by
    intro p price hinv
    unfold updatePos
    split
    · rename_i hgt
      constructor
      · rw [hinv]
        exact mul_le_mul_of_nonneg_right (le_of_lt hgt)
          (by linarith [hpct])
      · rfl
    · exact ⟨le_refl _, hinv⟩
  refine ⟨?_, ?_, ?_, ?_⟩
  · intro p price hle
    unfold updatePos
    rw [if_neg (not_lt.mpr hle)]
  · intro entry qty t
    simp [mkPosition]
  · intro p hinv prices
    induction prices generalizing p with
    | nil => exact ⟨le_refl _, hinv⟩
    | cons pr rest ih =>
      rw [List.foldl_cons]
      have h1 := hone p pr hinv
      have h2 := ih (updatePos cfg p pr) h1.2
      exact ⟨le_trans h1.1 h2.1, h2.2⟩
  · intro s sym p price hget
    by_cases hgt : price > p.highest_price
    · have hup : update_position cfg sym price s =
          { s with positions := dictSet s.positions sym (updatePos cfg p price) } := by
        unfold update_position
        rw [hget]
        simp [hgt]
      rw [hup]
      exact dictGet_dictSet_same _ _ _
    · have hup : update_position cfg sym price s = s := by
        unfold update_position
        rw [hget]
        simp [hgt]
      rw [hup, hget]
      unfold updatePos
      rw [if_neg hgt]

/-- C6 witness: a position opened at 100 and updated through prices
150 then 120 never lowers its stop (instantiating the monotonicity part
at the default configuration). -/
theorem trailing_stop_monotone_witness :
    (mkPosition defaultRMConfig 100 10 0).stop_loss_price ≤
      (([150, 120] : List ℚ).foldl (updatePos defaultRMConfig)
        (mkPosition defaultRMConfig 100 10 0)).stop_loss_price := by
  have h := trailing_stop_monotone defaultRMConfig
    (by norm_num [defaultRMConfig])
  exact (h.2.2.1 (mkPosition defaultRMConfig 100 10 0) (h.2.1 100 10 0)
    [150, 120]).1

/-! ## C2: circuit breaker vs. `emergency_stop` across calendar dates -/

/-- C2 (counterexample): after `emergency_stop` (and no `resume_trading`),
the FIRST `can_trade` call on a new calendar date returns
`allowed = true`: `reset_daily_counters` clears the breaker without
distinguishing why it was set. -/
theorem emergency_stop_cleared_by_new_day_cex :
    (emergency_stop freshRM).circuit_breaker_triggered = true ∧
    (emergency_stop freshRM).trading_enabled = false ∧
    (can_trade defaultRMConfig 1 100000 100000
        (emergency_stop freshRM)).2.1 = true ∧
    (can_trade defaultRMConfig 1 100000 100000
        (emergency_stop freshRM)).1.circuit_breaker_triggered = false ∧
    (can_trade defaultRMConfig 1 100000 100000
        (emergency_stop freshRM)).1.trading_enabled = true := by
  refine ⟨rfl, rfl, ?_, ?_, ?_⟩ <;>
    · simp [can_trade, reset_daily_counters, check_daily_loss_limit,
        check_max_drawdown, check_min_balance, check_trade_limit,
        emergency_stop, freshRM, defaultRMConfig]
      norm_num

/-- C2 (amended): while the calendar date is unchanged, a tripped breaker
(in particular one set by `emergency_stop`) makes every `can_trade` call
return `allowed = false` with the circuit-breaker reason and leaves the
state untouched; but the first `can_trade` call on a NEW calendar date
clears the breaker and re-enables trading regardless of whether the trip
came from `emergency_stop`, a daily-loss breach or a drawdown breach —
`reset_daily_counters` does not distinguish the trip cause.
`resume_trading` clears the breaker manually. -/
theorem breaker_new_day_amended (cfg : RMConfig) :
    (∀ (s : RMState) (d : ℕ) (pv b : ℚ),
      s.circuit_breaker_triggered = true → s.current_date = some d →
      can_trade cfg d pv b s = (s, false, Reason.breaker)) ∧
    (∀ s : RMState,
      (emergency_stop s).circuit_breaker_triggered = true ∧
      (emergency_stop s).trading_enabled = false ∧
      (emergency_stop s).current_date = s.current_date) ∧
    (∀ (s : RMState) (d : ℕ) (pv : ℚ),
      s.current_date ≠ some d → s.circuit_breaker_triggered = true →
      (reset_daily_counters d pv s).circuit_breaker_triggered = false ∧
      (reset_daily_counters d pv s).trading_enabled = true ∧
      (reset_daily_counters d pv s).trades_today = 0 ∧
      (reset_daily_counters d pv s).current_date = some d) ∧
    (∀ s : RMState,
      (resume_trading s).trading_enabled = true ∧
      (resume_trading s).circuit_breaker_triggered = false) := by
  refine ⟨?_, fun s => ⟨rfl, rfl, rfl⟩, ?_, fun s => ⟨rfl, rfl⟩⟩
  · intro s d pv b hcb hdate
    unfold can_trade
    rw [show reset_daily_counters d pv s = s from by
      unfold reset_daily_counters; rw [if_pos hdate]]
    rw [if_pos hcb]
  · intro s d pv hdate hcb
    unfold reset_daily_counters
    rw [if_neg hdate]
    simp [hcb]

/-- C2 witness: the same-date blocking part of the amended theorem at a
concrete tripped manager. -/
theorem breaker_new_day_amended_witness :
    can_trade defaultRMConfig 3 100000 100000
        (emergency_stop { freshRM with current_date := some 3 }) =
      (emergency_stop { freshRM with current_date := some 3 }, false,
        Reason.breaker) :=
  (breaker_new_day_amended defaultRMConfig).1
    (emergency_stop { freshRM with current_date := some 3 }) 3 100000 100000
    rfl rfl

/-! ## C10: the minimum-balance gate latches -/

theorem check_daily_loss_limit_pass {cfg : RMConfig} {pv : ℚ} {s : RMState}
    (h : (check_daily_loss_limit cfg pv s).2.1 = true) :
    (check_daily_loss_limit cfg pv s).1 = s := by
  unfold check_daily_loss_limit at h ⊢
  split at h
  · rfl
  · split at h
    · simp at h
    · rw [if_neg (by assumption)]

theorem check_max_drawdown_pass {cfg : RMConfig} {pv : ℚ} {s : RMState}
    (h : (check_max_drawdown cfg pv s).2.1 = true) :
    (check_max_drawdown cfg pv s).1 = s := by
  unfold check_max_drawdown at h ⊢
  split at h
  · rfl
  · split at h
    · simp at h
    · rw [if_neg (by assumption)]

/-- C10: (1) when `can_trade` runs with the breaker clear, trading enabled,
the daily-loss and drawdown gates passing, and `balance < min_balance`,
it refuses with the minimum-balance reason and sets
`trading_enabled := false` while leaving the breaker clear — the latch is
armed; (2) the new-day reset re-enables trading only when the breaker is
set: with the breaker clear it never touches `trading_enabled`; (3) from
any state with `trading_enabled = false` and
`circuit_breaker_triggered = false`, EVERY subsequent `can_trade` call —
any dates, any portfolio values, any (restored) balances — returns
`(false, "Trading manually disabled")` and the state stays latched,
until `resume_trading` re-enables it. -/
theorem min_balance_latch (cfg : RMConfig) :
    (∀ (s : RMState) (today : ℕ) (pv b : ℚ),
      (reset_daily_counters today pv s).circuit_breaker_triggered = false →
      (reset_daily_counters today pv s).trading_enabled = true →
      (check_daily_loss_limit cfg pv (reset_daily_counters today pv s)).2.1 =
        true →
      (check_max_drawdown cfg pv (reset_daily_counters today pv s)).2.1 =
        true →
      b < cfg.min_balance →
      (can_trade cfg today pv b s).2.1 = false ∧
      (can_trade cfg today pv b s).2.2 = Reason.minBalance ∧
      (can_trade cfg today pv b s).1.trading_enabled = false ∧
      (can_trade cfg today pv b s).1.circuit_breaker_triggered = false) ∧
    (∀ (s : RMState) (d : ℕ) (pv : ℚ),
      s.circuit_breaker_triggered = false →
      (reset_daily_counters d pv s).trading_enabled = s.trading_enabled ∧
      (reset_daily_counters d pv s).circuit_breaker_triggered = false) ∧
    (∀ s : RMState,
      s.trading_enabled = false → s.circuit_breaker_triggered = false →
      ∀ calls : List (ℕ × ℚ × ℚ),
        (canTradeRun cfg s calls).2 =
          calls.map (fun _ => (false, Reason.manual)) ∧
        (canTradeRun cfg s calls).1.trading_enabled = false ∧
        (canTradeRun cfg s calls).1.circuit_breaker_triggered = false) := by
  have hreset : ∀ (s : RMState) (d : ℕ) (pv : ℚ),
      s.circuit_breaker_triggered = false →
      (reset_daily_counters d pv s).trading_enabled = s.trading_enabled ∧
      (reset_daily_counters d pv s).circuit_breaker_triggered = false := by
    intro s d pv hcb
    unfold reset_daily_counters
    split
    · exact ⟨rfl, hcb⟩
    · simp [hcb]
  have hstep : ∀ (s : RMState) (today : ℕ) (pv b : ℚ),
      s.trading_enabled = false → s.circuit_breaker_triggered = false →
      can_trade cfg today pv b s =
        (reset_daily_counters today pv s, false, Reason.manual) := by
    intro s today pv b hen hcb
    have h1 := hreset s today pv hcb
    unfold can_trade
    rw [if_neg (by rw [h1.2]; exact Bool.false_ne_true),
      if_pos (by rw [h1.1, hen])]
  refine ⟨?_, hreset, ?_⟩
  · intro s today pv b hcb hen h1 h2 hbal
    unfold can_trade
    rw [if_neg (by rw [hcb]; exact Bool.false_ne_true),
      if_neg (by rw [hen]; exact fun hc => Bool.noConfusion hc)]
    have e1 := check_daily_loss_limit_pass h1
    have e2 : (check_max_drawdown cfg pv
        (check_daily_loss_limit cfg pv
          (reset_daily_counters today pv s)).1).2.1 = true := by
      rw [e1]; exact h2
    have e2s := check_max_drawdown_pass e2
    rw [e1] at e2s
    dsimp only
    rw [if_neg (by rw [h1]; exact fun hc => Bool.noConfusion hc),
      if_neg (by rw [e2]; exact fun hc => Bool.noConfusion hc)]
    have e3 : check_min_balance cfg b
        (check_max_drawdown cfg pv
          (check_daily_loss_limit cfg pv
            (reset_daily_counters today pv s)).1).1 =
        ({ (reset_daily_counters today pv s) with trading_enabled := false },
          false, Reason.minBalance) := by
      rw [e1, e2s]
      unfold check_min_balance
      rw [if_pos hbal]
    rw [e3]
    exact ⟨rfl, rfl, rfl, hcb⟩
  · intro s hen hcb calls
    induction calls generalizing s with
    | nil => exact ⟨rfl, hen, hcb⟩
    | cons c cs ih =>
      have h1 := hreset s c.1 c.2.1 hcb
      have h2 := hstep s c.1 c.2.1 c.2.2 hen hcb
      have ih2 := ih (reset_daily_counters c.1 c.2.1 s)
        (by rw [h1.1, hen]) h1.2
      simp only [canTradeRun, h2, List.map_cons]
      exact ⟨by rw [ih2.1], ih2.2.1, ih2.2.2⟩

/-- C10 witness: a manager whose balance dropped below the minimum is
latched: the arming call refuses with the min-balance reason, and two
later calls on later dates with a fully restored balance still return
`(false, "Trading manually disabled")`. -/
theorem min_balance_latch_witness :
    (can_trade defaultRMConfig 0 100000 5000 freshRM).2.2 =
      Reason.minBalance ∧
    (canTradeRun defaultRMConfig
        (can_trade defaultRMConfig 0 100000 5000 freshRM).1
        [(1, 100000, 100000), (2, 100000, 100000)]).2 =
      [(false, Reason.manual), (false, Reason.manual)] := by
  have h := min_balance_latch defaultRMConfig
  have harm := h.1 freshRM 0 100000 5000
    (by simp [reset_daily_counters, freshRM])
    (by simp [reset_daily_counters, freshRM])
    (by simp [reset_daily_counters, check_daily_loss_limit, freshRM,
          defaultRMConfig]
        norm_num)
    (by simp [reset_daily_counters, check_max_drawdown, freshRM,
          defaultRMConfig]
        norm_num)
    (by norm_num [defaultRMConfig])
  refine ⟨harm.2.1, ?_⟩
  exact (h.2.2 (can_trade defaultRMConfig 0 100000 5000 freshRM).1
    harm.2.2.1 harm.2.2.2 [(1, 100000, 100000), (2, 100000, 100000)]).1

/-! ## C8: position sizing caps -/

/-- C8: with a positive price and nonnegative cash, the returned share
count is exactly the floor of the capped-and-volatility-scaled notional
divided by price, re-capped to `floor(balance / price)` (the two-sided
`min`), so the share notional never exceeds the available cash; and the
spec's example — action 1.0, cash 100000, `max_position_size` 0.2,
portfolio value 100000 — caps the notional at 20000. -/
theorem position_size_caps (cfg : RMConfig) (a b pv price : ℚ)
    (vol : Option ℚ) (hp : 0 < price) (hb : 0 ≤ b) :
    calculate_position_size cfg a b pv price vol =
      min (pyInt (positionValue cfg a b pv vol / price))
        (pyInt (b / price)) ∧
    (calculate_position_size cfg a b pv price vol : ℚ) * price ≤ b ∧
    positionValue defaultRMConfig 1 100000 100000 none = 20000 := by
  have hbp : 0 ≤ b / price := div_nonneg hb (le_of_lt hp)
  have hF2 : (pyInt (b / price) : ℚ) * price ≤ b := by
    have := pyInt_le_self hbp
    calc (pyInt (b / price) : ℚ) * price ≤ b / price * price :=
          mul_le_mul_of_nonneg_right this (le_of_lt hp)
      _ = b := div_mul_cancel₀ b (ne_of_gt hp)
  have hmain : calculate_position_size cfg a b pv price vol =
      min (pyInt (positionValue cfg a b pv vol / price))
        (pyInt (b / price)) := by
    simp only [calculate_position_size]
    split
    · rename_i hgt
      refine (min_eq_right ?_).symm
      have h1 : b < (pyInt (positionValue cfg a b pv vol / price) : ℚ) *
          price := hgt
      have h2 : b / price <
          (pyInt (positionValue cfg a b pv vol / price) : ℚ) :=
        (div_lt_iff₀ hp).mpr h1
      have h3 : (pyInt (b / price) : ℚ) <
          (pyInt (positionValue cfg a b pv vol / price) : ℚ) :=
        lt_of_le_of_lt (pyInt_le_self hbp) h2
      exact_mod_cast le_of_lt h3
    · rename_i hle
      push_neg at hle
      refine (min_eq_left ?_).symm
      have h1 : (pyInt (positionValue cfg a b pv vol / price) : ℚ) ≤
          b / price := (le_div_iff₀ hp).mpr hle
      exact le_pyInt hbp h1
  refine ⟨hmain, ?_, by norm_num [positionValue, defaultRMConfig]⟩
  rw [hmain]
  have hminle : ((min (pyInt (positionValue cfg a b pv vol / price))
      (pyInt (b / price)) : ℤ) : ℚ) ≤ (pyInt (b / price) : ℚ) :=
    Int.cast_le.mpr (min_le_right _ _)
  calc ((min (pyInt (positionValue cfg a b pv vol / price))
        (pyInt (b / price)) : ℤ) : ℚ) * price
      ≤ (pyInt (b / price) : ℚ) * price :=
        mul_le_mul_of_nonneg_right hminle (le_of_lt hp)
    _ ≤ b := hF2

/-- C8 witness: the cap theorem at action 1.0, cash 100000, portfolio
100000, price 50 under the default limits: at most
`floor(20000 / 50) = 400` shares, and the notional stays within cash. -/
theorem position_size_caps_witness :
    calculate_position_size defaultRMConfig 1 100000 100000 50 none =
      min (pyInt (positionValue defaultRMConfig 1 100000 100000 none / 50))
        (pyInt ((100000 : ℚ) / 50)) ∧
    (calculate_position_size defaultRMConfig 1 100000 100000 50 none : ℚ) *
      50 ≤ 100000 := by
  have h := position_size_caps defaultRMConfig 1 100000 100000 50 none
    (by norm_num) (by norm_num)
  exact ⟨h.1, h.2.1⟩

/-! ## C4: depth-based slippage walks the wrong side for a buy -/

/-- C4: `calculate_slippage_zerodha` with `side = "BUY"` walks
`depth['buy']` — the BID levels (this repository's own
`live_trade_zerodha.py` reads `bid_price` from `depth['buy'][0]`) — not
the ask levels the spec requires.  With bids `[99@50, 98@50]` and asks
`[100@50, 101@50]`, a BUY of 60 returns the bid-book figure `1/594`,
while the claimed ask-book walk gives `1/600` (the value the code only
produces for `side = "SELL"`, or when the ask levels are fed in as
`depth['buy']`).  The insufficient-liquidity penalty `0.005` and the
no-depth default `0.001` are as claimed. -/
theorem slippage_buy_walks_bid_side :
    calculate_slippage_zerodha
      { buy := [⟨99, 50⟩, ⟨98, 50⟩], sell := [⟨100, 50⟩, ⟨101, 50⟩] }
      60 .BUY = 1 / 594 ∧
    calculate_slippage_zerodha
      { buy := [⟨99, 50⟩, ⟨98, 50⟩], sell := [⟨100, 50⟩, ⟨101, 50⟩] }
      60 .SELL = 1 / 600 ∧
    (1 / 594 : ℚ) ≠ 1 / 600 ∧
    calculate_slippage_zerodha
      { buy := [⟨100, 50⟩, ⟨101, 50⟩], sell := [⟨100, 50⟩, ⟨101, 50⟩] }
      60 .BUY = 1 / 600 ∧
    calculate_slippage_zerodha
      { buy := [⟨100, 50⟩, ⟨101, 50⟩], sell := [⟨100, 50⟩, ⟨101, 50⟩] }
      200 .BUY = 1 / 200 ∧
    calculate_slippage_zerodha { buy := [], sell := [] } 60 .BUY =
      1 / 1000 := by
  have habs : |(1 : ℚ) / 6| = 1 / 6 := abs_of_nonneg (by norm_num)
  refine ⟨?_, ?_, by norm_num, ?_, ?_, ?_⟩ <;>
    simp [calculate_slippage_zerodha, walkBook] <;>
    norm_num [habs]

/-! ## Environment helper lemmas -/

theorem priceAt_nonneg : ∀ (df : List ℚ), (∀ p ∈ df, 0 ≤ p) →
    ∀ k : ℕ, 0 ≤ priceAt df k := by
  intro df
  induction df with
  | nil => intro _ k; simp [priceAt]
  | cons x xs ih =>
    intro h k
    cases k with
    | zero => simpa [priceAt] using h x (by simp)
    | succ n =>
      simpa [priceAt] using ih (fun p hp => h p (by simp [hp])) n

theorem calculate_reward_fields (cfg : EnvConfig) (df : List ℚ)
    (s : EnvState) (fee : ℚ) :
    (calculate_reward cfg df s fee).1.balance = s.balance ∧
    (calculate_reward cfg df s fee).1.shares_held = s.shares_held ∧
    (calculate_reward cfg df s fee).1.returns = s.returns ∧
    (calculate_reward cfg df s fee).1.portfolio_values =
      s.portfolio_values ∧
    (calculate_reward cfg df s fee).1.current_step = s.current_step := by
  simp only [calculate_reward]
  split <;> exact ⟨rfl, rfl, rfl, rfl, rfl⟩

theorem envStep_balance (cfg : EnvConfig) (df : List ℚ) (s : EnvState)
    (a : ℚ) :
    (envStep cfg df s a).1.balance =
      (execute_trade cfg s a (priceAt df s.current_step)).1.balance := by
  simp only [envStep]
  exact (calculate_reward_fields cfg df _ _).1

theorem envStep_shares (cfg : EnvConfig) (df : List ℚ) (s : EnvState)
    (a : ℚ) :
    (envStep cfg df s a).1.shares_held =
      (execute_trade cfg s a (priceAt df s.current_step)).1.shares_held := by
  simp only [envStep]
  exact (calculate_reward_fields cfg df _ _).2.1

theorem execute_trade_balance_nonneg (cfg : EnvConfig) (s : EnvState)
    (a price : ℚ) (htc : cfg.transaction_cost ≤ 1) (hp : 0 ≤ price)
    (hbal : 0 ≤ s.balance) :
    0 ≤ (execute_trade cfg s a price).1.balance := by
  simp only [execute_trade]
  split
  · split
    · split
      · rename_i h1 h2 h3
        dsimp only
        linarith
      · exact hbal
    · exact hbal
  · split
    · split
      · split
        · rename_i h1 h2 h3
          dsimp only
          have hs0 : (0 : ℚ) ≤
              (pyInt ((s.shares_held : ℚ) * min |a| 1) : ℚ) := by
            exact_mod_cast le_of_lt h3
          have hrev : (0 : ℚ) ≤
              (pyInt ((s.shares_held : ℚ) * min |a| 1) : ℚ) * price :=
            mul_nonneg hs0 hp
          have hnet : (0 : ℚ) ≤
              (pyInt ((s.shares_held : ℚ) * min |a| 1) : ℚ) * price -
              (pyInt ((s.shares_held : ℚ) * min |a| 1) : ℚ) * price *
                cfg.transaction_cost := by
            nlinarith
          linarith
        · exact hbal
      · exact hbal
    · exact hbal

theorem sell_le_shares (sh : ℤ) (a : ℚ) (hsh : 0 ≤ sh) :
    pyInt ((sh : ℚ) * min |a| 1) ≤ sh := by
  have hfrac0 : (0 : ℚ) ≤ min |a| 1 := le_min (abs_nonneg a) zero_le_one
  have hfrac1 : min |a| 1 ≤ 1 := min_le_right _ _
  have hcast : (0 : ℚ) ≤ (sh : ℚ) := Int.cast_nonneg.mpr hsh
  have hq0 : (0 : ℚ) ≤ (sh : ℚ) * min |a| 1 := mul_nonneg hcast hfrac0
  have hle : (sh : ℚ) * min |a| 1 ≤ (sh : ℚ) := by
    calc (sh : ℚ) * min |a| 1 ≤ (sh : ℚ) * 1 :=
          mul_le_mul_of_nonneg_left hfrac1 hcast
      _ = (sh : ℚ) := mul_one _
  have := pyInt_le_self hq0
  exact_mod_cast le_trans this hle

theorem execute_trade_shares_nonneg (cfg : EnvConfig) (s : EnvState)
    (a price : ℚ) (hsh : 0 ≤ s.shares_held) :
    0 ≤ (execute_trade cfg s a price).1.shares_held := by
  simp only [execute_trade]
  split
  · split
    · split
      · rename_i h1 h2 h3
        dsimp only
        omega
      · exact hsh
    · exact hsh
  · split
    · split
      · split
        · rename_i h1 h2 h3
          dsimp only
          have := sell_le_shares s.shares_held a hsh
          omega
        · exact hsh
      · exact hsh
    · exact hsh

theorem runSteps_balance_nonneg (cfg : EnvConfig) (df : List ℚ)
    (htc : cfg.transaction_cost ≤ 1) (hdf : ∀ p ∈ df, 0 ≤ p) :
    ∀ (actions : List ℚ) (s : EnvState), 0 ≤ s.balance →
      0 ≤ (runSteps cfg df s actions).balance := by
  intro actions
  induction actions with
  | nil => intro s h; exact h
  | cons a rest ih =>
    intro s h
    have h1 : 0 ≤ (envStep cfg df s a).1.balance := by
      rw [envStep_balance]
      exact execute_trade_balance_nonneg cfg s a _ htc
        (priceAt_nonneg df hdf s.current_step) h
    exact ih _ h1

theorem runSteps_shares_nonneg (cfg : EnvConfig) (df : List ℚ) :
    ∀ (actions : List ℚ) (s : EnvState), 0 ≤ s.shares_held →
      0 ≤ (runSteps cfg df s actions).shares_held := by
  intro actions
  induction actions with
  | nil => intro s h; exact h
  | cons a rest ih =>
    intro s h
    have h1 : 0 ≤ (envStep cfg df s a).1.shares_held := by
      rw [envStep_shares]
      exact execute_trade_shares_nonneg cfg s a _ h
    exact ih _ h1

/-! ## C1: cash balance never negative -/

/-- C1: starting from `reset`, for every action sequence and every step
count `k`, the cash balance is nonnegative after `k` steps (given a
nonnegative initial balance, a fee rate ≤ 100% and nonnegative prices);
moreover a buy whose cost-plus-fee exceeds the current balance is
silently skipped: `_execute_trade` returns the state unchanged with zero
fee. -/
theorem env_cash_balance_nonneg (cfg : EnvConfig) (df actions : List ℚ)
    (hinit : 0 ≤ cfg.initial_balance) (htc : cfg.transaction_cost ≤ 1)
    (hdf : ∀ p ∈ df, 0 ≤ p) :
    (∀ k : ℕ,
      0 ≤ (runSteps cfg df (resetEnv cfg) (actions.take k)).balance) ∧
    (∀ (s : EnvState) (a price : ℚ), 0 < a →
      0 < pyInt (s.balance * min |a| cfg.max_position_size / price) →
      ¬((pyInt (s.balance * min |a| cfg.max_position_size / price) : ℚ) *
            price +
          (pyInt (s.balance * min |a| cfg.max_position_size / price) : ℚ) *
            price * cfg.transaction_cost ≤ s.balance) →
      execute_trade cfg s a price = (s, 0)) := by
  constructor
  · intro k
    exact runSteps_balance_nonneg cfg df htc hdf (actions.take k)
      (resetEnv cfg) hinit
  · intro s a price h1 h2 h3
    simp only [execute_trade]
    rw [if_pos h1, if_pos h2, if_neg h3]

/-- C1 witness: two steps of an aggressive buy at price 10 from 100000
initial cash leave the balance nonnegative, at the default 0.1% fee. -/
theorem env_cash_balance_nonneg_witness :
    0 ≤ (runSteps ⟨100000, 1 / 1000, 1⟩ [10, 10, 10]
      (resetEnv ⟨100000, 1 / 1000, 1⟩) ([1, 1].take 2)).balance :=
  (env_cash_balance_nonneg ⟨100000, 1 / 1000, 1⟩ [10, 10, 10] [1, 1]
    (by norm_num) (by norm_num) (by intro p hp; fin_cases hp <;> norm_num)).1 2

/-! ## C7: shares held never negative -/

/-- C7: starting from `reset`, `shares_held` is nonnegative after every
step, with no assumptions on prices or fees: a sell removes
`int(shares_held * min(|action|, 1)) ≤ shares_held` shares, and a sell
with `shares_held = 0` changes nothing at all. -/
theorem env_shares_nonneg (cfg : EnvConfig) (df actions : List ℚ) :
    (∀ k : ℕ,
      0 ≤ (runSteps cfg df (resetEnv cfg) (actions.take k)).shares_held) ∧
    (∀ (sh : ℤ) (a : ℚ), 0 ≤ sh → pyInt ((sh : ℚ) * min |a| 1) ≤ sh) ∧
    (∀ (s : EnvState) (a price : ℚ), a < 0 → s.shares_held = 0 →
      execute_trade cfg s a price = (s, 0)) := by
  refine ⟨?_, sell_le_shares, ?_⟩
  · intro k
    exact runSteps_shares_nonneg cfg df (actions.take k) (resetEnv cfg)
      le_rfl
  · intro s a price ha hsh
    simp only [execute_trade]
    rw [if_neg (not_lt.mpr (le_of_lt ha)), if_pos ha,
      if_neg (by rw [hsh]; exact lt_irrefl 0)]

/-- C7 witness: a full-strength sell with zero shares held is a no-op,
and shares stay nonnegative after three steps of sell actions. -/
theorem env_shares_nonneg_witness :
    0 ≤ (runSteps ⟨100000, 1 / 1000, 1⟩ [10, 10, 10, 10]
      (resetEnv ⟨100000, 1 / 1000, 1⟩) ([-1, -1, -1].take 3)).shares_held ∧
    execute_trade ⟨100000, 1 / 1000, 1⟩ (resetEnv ⟨100000, 1 / 1000, 1⟩)
      (-1) 10 = (resetEnv ⟨100000, 1 / 1000, 1⟩, 0) := by
  have h := env_shares_nonneg ⟨100000, 1 / 1000, 1⟩ [10, 10, 10, 10]
    [-1, -1, -1]
  exact ⟨h.1 3, h.2.2 (resetEnv ⟨100000, 1 / 1000, 1⟩) (-1) 10
    (by norm_num) rfl⟩

/-! ## C9: Sharpe-ratio zero-variance guard -/

theorem npVarQ_nonneg (xs : List ℚ) : 0 ≤ npVarQ xs := by
  unfold npVarQ
  apply div_nonneg
  · apply List.sum_nonneg
    intro x hx
    simp only [List.mem_map] at hx
    obtain ⟨y, _, rfl⟩ := hx
    positivity
  · exact Nat.cast_nonneg _

theorem npVarQ_replicate_zero (n : ℕ) :
    npVarQ (List.replicate n (0 : ℚ)) = 0 := by
  simp [npVarQ, npMean, List.sum_replicate, List.map_replicate]

theorem priceAt_replicate : ∀ {m k : ℕ}, k < m → ∀ p : ℚ,
    priceAt (List.replicate m p) k = p := by
  intro m
  induction m with
  | zero => intro k hk; omega
  | succ m' ih =>
    intro k hk p
    cases k with
    | zero => simp [priceAt, List.replicate_succ]
    | succ j =>
      have : j < m' := by omega
      simpa [priceAt, List.replicate_succ] using ih this p

theorem getLast?_replicate_succ (m : ℕ) (x : α) :
    (List.replicate (m + 1) x).getLast? = some x := by
  rw [List.replicate_succ']
  exact List.getLast?_concat _

theorem run_const_hold (cfg : EnvConfig) (p : ℚ) (hp : 0 < p)
    (hi : 0 < cfg.initial_balance) (n : ℕ) :
    ∀ k, k ≤ n →
      runSteps cfg (List.replicate (n + 1) p) (resetEnv cfg)
        (List.replicate k 0) =
      { balance := cfg.initial_balance, shares_held := 0,
        total_shares_bought := 0, total_shares_sold := 0,
        total_trades := 0, net_worth := cfg.initial_balance,
        max_net_worth := cfg.initial_balance,
        returns := List.replicate k 0,
        portfolio_values := List.replicate (k + 1) cfg.initial_balance,
        current_step := k } := by
  intro k
  induction k with
  | zero => intro _; rfl
  | succ m ih =>
    intro hle
    have hm : m ≤ n := Nat.le_of_succ_le hle
    have hsplit : runSteps cfg (List.replicate (n + 1) p) (resetEnv cfg)
        (List.replicate (m + 1) 0) =
        (envStep cfg (List.replicate (n + 1) p)
          (runSteps cfg (List.replicate (n + 1) p) (resetEnv cfg)
            (List.replicate m 0)) 0).1 := by
      rw [show List.replicate (m + 1) (0 : ℚ) =
          List.replicate m 0 ++ [0] from List.replicate_succ' m 0]
      unfold runSteps
      rw [List.foldl_append]
      rfl
    rw [hsplit, ih hm]
    have hprice : priceAt (List.replicate (n + 1) p) m = p :=
      priceAt_replicate (Nat.lt_succ_of_le hm) p
    have hprice0 : priceAt (List.replicate (n + 1) p) 0 = p :=
      priceAt_replicate (Nat.succ_pos n) p
    have hpp : p / p = 1 := div_self (ne_of_gt hp)
    have hii : cfg.initial_balance / cfg.initial_balance = 1 :=
      div_self (ne_of_gt hi)
    simp only [envStep, execute_trade, calculate_reward, hprice, hprice0,
      getLast?_replicate_succ, gt_iff_lt, lt_irrefl, if_false, Int.cast_zero,
      zero_mul, add_zero, sub_self, zero_div, mul_zero, sub_zero, hpp, hii,
      ite_self, lt_self_iff_false]
    rw [show List.replicate m (0 : ℚ) ++ [0] = List.replicate (m + 1) 0 from
        (List.replicate_succ' m 0).symm,
      show List.replicate (m + 1) cfg.initial_balance ++
          [cfg.initial_balance] =
          List.replicate (m + 2) cfg.initial_balance from
        (List.replicate_succ' (m + 1) cfg.initial_balance).symm]

/-- C9: the reported Sharpe ratio is the guarded zero exactly when fewer
than 2 step rewards were recorded or their variance (squared standard
deviation) is zero; in the complementary branch the variance — and hence
the `np.std` divisor — is strictly positive, so the division-by-zero
branch is unreachable and the result is never NaN or infinite; and a
constant positive price series traded with hold actions records all-zero
step rewards, reporting Sharpe 0. -/
theorem sharpe_zero_guard :
    (∀ xs : List ℚ, 0 ≤ npVarQ xs) ∧
    (∀ xs : List ℚ,
      sharpeReported xs = SharpeVal.zero ↔
        xs.length < 2 ∨ npVarQ xs = 0) ∧
    (∀ (xs : List ℚ) (m v : ℚ),
      sharpeReported xs = SharpeVal.fromMeanVar m v →
        0 < v ∧ v = npVarQ xs ∧ m = npMean xs) ∧
    (∀ (cfg : EnvConfig) (p : ℚ) (n : ℕ), 0 < p →
      0 < cfg.initial_balance →
      (runSteps cfg (List.replicate (n + 1) p) (resetEnv cfg)
          (List.replicate n 0)).returns = List.replicate n 0 ∧
      episodeSharpe (runSteps cfg (List.replicate (n + 1) p) (resetEnv cfg)
          (List.replicate n 0)) = SharpeVal.zero) := by
  refine ⟨npVarQ_nonneg, ?_, ?_, ?_⟩
  · intro xs
    by_cases h : xs.length > 1 ∧ 0 < npVarQ xs
    · rw [sharpeReported, if_pos h]
      constructor
      · intro he
        exact SharpeVal.noConfusion he
      · intro hor
        exfalso
        rcases hor with hlen | hvar
        · omega
        · exact absurd hvar (ne_of_gt h.2)
    · rw [sharpeReported, if_neg h]
      refine iff_of_true rfl ?_
      rcases not_and_or.mp h with hlen | hvar
      · left; omega
      · right
        exact le_antisymm (not_lt.mp hvar) (npVarQ_nonneg xs)
  · intro xs m v he
    rw [sharpeReported] at he
    split at he
    · rename_i h
      injection he with hm hv
      exact ⟨hv ▸ h.2, hv.symm, hm.symm⟩
    · exact SharpeVal.noConfusion he
  · intro cfg p n hp hi
    have h := run_const_hold cfg p hp hi n n le_rfl
    rw [episodeSharpe, h]
    refine ⟨rfl, ?_⟩
    rw [sharpeReported, if_neg ?_]
    intro hc
    rw [npVarQ_replicate_zero] at hc
    exact lt_irrefl 0 hc.2

/-- C9 witness: three hold steps on the constant price series 10 report
the zero Sharpe ratio. -/
theorem sharpe_zero_guard_witness :
    episodeSharpe (runSteps ⟨100000, 1 / 1000, 1⟩
      (List.replicate (3 + 1) (10 : ℚ)) (resetEnv ⟨100000, 1 / 1000, 1⟩)
      (List.replicate 3 0)) = SharpeVal.zero :=
  (sharpe_zero_guard.2.2.2 ⟨100000, 1 / 1000, 1⟩ 10 3 (by norm_num)
    (by norm_num)).2
